import Mathlib

/-!
Verification development for the `trax` research models
(`transformer_no_enc_dec_attention.py` and `terraformer.py`).

Tensors are shallowly embedded as nested lists: a `(B, L)` array is a
`List (List α)` and a `(B, L, H)` array is a `List (List (List α))`.
Shapes are read off the nesting the way `numpy` reads metadata; the
theorems carry rectangularity hypotheses since actual `jnp` arrays are
always rectangular.  `jax.lax.dynamic_update_slice` and
`jax.lax.dynamic_slice` are modelled with their index-clamping semantics.
Float values only matter for `_ConvertToNaNsOnAnyZero`, which is modelled
over an IEEE-style value type with signed infinities and NaN.
-/

namespace Trax

/-- A rank-2 array (batch of rows). -/
abbrev Arr2 (α : Type) := List (List α)

/-- A rank-3 array (batch of matrices). -/
abbrev Arr3 (α : Type) := List (List (List α))

/-- Second dimension of a rank-2 (or higher) array, read from its first row,
the way `t.shape[1]` reads array metadata. -/
def dim1 {β : Type} (t : List (List β)) : ℕ := ((t.head?).getD []).length

/-- Third dimension of a rank-3 array, read from its first row of its first
matrix, the way `t.shape[2]` reads array metadata. -/
def dim2 {α : Type} (t : Arr3 α) : ℕ := dim1 ((t.head?).getD [])

/-- The shape `(B, L)` of a rank-2 array. -/
def shape2 {α : Type} (t : Arr2 α) : ℕ × ℕ := (t.length, dim1 t)

/-- The shape `(B, L, H)` of a rank-3 array. -/
def shape3 {α : Type} (t : Arr3 α) : ℕ × ℕ × ℕ := (t.length, dim1 t, dim2 t)

/-- `t` is a rectangular `(B, L)` array. -/
def Rect2 {α : Type} (t : Arr2 α) (B L : ℕ) : Prop :=
  t.length = B ∧ ∀ r ∈ t, r.length = L

/-- `t` is a rectangular `(B, L, H)` array. -/
def Rect3 {α : Type} (t : Arr3 α) (B L H : ℕ) : Prop :=
  t.length = B ∧ ∀ r ∈ t, r.length = L ∧ ∀ v ∈ r, v.length = H

instance {α : Type} (t : Arr2 α) (B L : ℕ) : Decidable (Rect2 t B L) := by
  unfold Rect2; infer_instance

instance {α : Type} (t : Arr3 α) (B L H : ℕ) : Decidable (Rect3 t B L H) := by
  unfold Rect3; infer_instance

/-- `jax.lax.map` over the leading axis of three stacked arrays: the row
function is applied to corresponding rows; models `jax.lax.map(f, [a, b, c])`. -/
def map3 {a b c d : Type} (f : a → b → c → d) : List a → List b → List c → List d
  | x :: xs, y :: ys, z :: zs => f x y z :: map3 f xs ys zs
  | _, _, _ => []

/-- `jax.lax.dynamic_update_slice(operand, update, (start, 0))` on the leading
axis: the start index is clamped so the update fits inside the operand, then
the update overwrites the corresponding slice.  (The second start index in the
source is always `0` and the update spans the full trailing width, so only the
leading axis moves.) -/
def dynamicUpdateSlice {β : Type} (operand update : List β) (start : ℤ) : List β :=
  let s : ℕ := (min (max start 0) ((operand.length : ℤ) - (update.length : ℤ))).toNat
  operand.take s ++ update ++ operand.drop (s + update.length)

/-- `jax.lax.dynamic_slice(operand, (start, 0), (len, H))` on the leading axis:
the start index is clamped so the slice fits inside the operand.  (The source
always slices the full trailing width `H`.) -/
def dynamicSlice {β : Type} (operand : List β) (start : ℤ) (len : ℕ) : List β :=
  let s : ℕ := (min (max start 0) ((operand.length : ℤ) - (len : ℤ))).toNat
  (operand.drop s).take len

/-- `jnp.zeros_like(row_d)` for a `(L2, H)` row. -/
def zerosLike {α : Type} [Zero α] (row_d : List (List α)) : List (List α) :=
  row_d.map (fun r => r.map (fun _ => (0 : α)))

/-- `_UpdateRow` of `ConcatWithPadding._ConcatWithPadding`: concatenate the
encoder row with zeros shaped like the decoder row, then overwrite, starting at
`e_idx = sum(row_mask_e)`, with the decoder row. -/
def concatUpdateRow {α : Type} [Zero α]
    (row_e row_d : List (List α)) (row_mask_e : List ℤ) : List (List α) :=
  let final_row := row_e ++ zerosLike row_d
  let e_idx : ℤ := row_mask_e.sum
  dynamicUpdateSlice final_row row_d e_idx

/-- `ConcatWithPadding._ConcatWithPadding`: shape checks, then the per-row
update mapped over the batch.  A raised `ValueError` is an `Except.error`. -/
def concatWithPadding {α : Type} [Zero α]
    (vec_e vec_d : Arr3 α) (mask_e : Arr2 ℤ) : Except String (Arr3 α) :=
  let B := vec_e.length
  let L1 := dim1 vec_e
  let H := dim2 vec_e
  let L2 := dim1 vec_d
  if shape3 vec_d ≠ (B, L2, H) then
    .error s!"Shape of decoder vector, {toString (shape3 vec_d)}, does not equal {toString (B, L2, H)}."
  else if shape2 mask_e ≠ (B, L1) then
    .error s!"Shape of encoder mask, {toString (shape2 mask_e)}, does not equal {toString (B, L1)}."
  else .ok (map3 concatUpdateRow vec_e vec_d mask_e)

/-- `_UpdateRow` of `StripFromConcatenateWithPadding`: `len_e` counts the
nonzero encoder tokens of the row, and a `(L2, H)` slice of the merged row is
taken starting there. -/
def stripUpdateRow {α : Type} (row_ed : List (List α)) (row_e : List ℤ)
    (L2 : ℕ) : List (List α) :=
  let len_e : ℤ := (row_e.countP (fun t => decide (t ≠ 0)) : ℕ)
  dynamicSlice row_ed len_e L2

/-- `StripFromConcatenateWithPadding._StripFromConcatenateWithPadding`:
length/shape checks, then the per-row slice mapped over the batch. -/
def stripFromConcatenateWithPadding {α : Type}
    (vec_ed : Arr3 α) (tok_e tok_d : Arr2 ℤ) : Except String (Arr3 α) :=
  let B := vec_ed.length
  let L := dim1 vec_ed
  let L1 := dim1 tok_e
  let L2 := dim1 tok_d
  if L ≠ L1 + L2 then
    .error s!"Length from encoder-decoder vectors ({toString L}) does not equal sum of lengths from encoder ({toString L1}) and decoder ({toString L2})."
  else if shape2 tok_e ≠ (B, L1) then
    .error s!"Shape of encoder tokens, {toString (shape2 tok_e)}, does not equal {toString (B, L1)}."
  else if shape2 tok_d ≠ (B, L2) then
    .error s!"Shape of decoder tokens, {toString (shape2 tok_d)}, does not equal {toString (B, L2)}."
  else .ok (map3 (fun row_ed row_e _ => stripUpdateRow row_ed row_e L2) vec_ed tok_e tok_d)

/-- The layer `mode` string: `train`, `eval` or `predict`. -/
inductive Mode where
  | train : Mode
  | modeEval : Mode
  | predict : Mode
deriving DecidableEq, Repr

/-- Both layers initialise `self.state = jnp.array(0, dtype=jnp.int32)`, a
scalar of shape `()`; the forward pass only ever reads the state's shape
(`not self.state.shape`) and reshapes it to `(1,)`, so the state is modelled
by its shape, a `List ℕ`. -/
def initClayerState : List ℕ := []

/-- `ConcatWithPadding.forward`: outside predict mode, or in predict mode on
the first call (state shape `()`), set the state shape to `(1,)` and run the
full concatenation; in predict mode afterwards, return the decoder vector
unchanged. -/
def concatForward {α : Type} [Zero α] (mode : Mode) (state : List ℕ)
    (vec_e vec_d : Arr3 α) (mask_e : Arr2 ℤ) :
    List ℕ × Except String (Arr3 α) :=
  if mode ≠ Mode.predict ∨ state = [] then
    ([1], concatWithPadding vec_e vec_d mask_e)
  else (state, .ok vec_d)

/-- `StripFromConcatenateWithPadding.forward`: outside predict mode, or in
predict mode on the first call, set the state shape to `(1,)` and run the full
stripping; in predict mode afterwards, return the input tensor unchanged. -/
def stripForward {α : Type} (mode : Mode) (state : List ℕ)
    (vec_ed : Arr3 α) (tok_e tok_d : Arr2 ℤ) :
    List ℕ × Except String (Arr3 α) :=
  if mode ≠ Mode.predict ∨ state = [] then
    ([1], stripFromConcatenateWithPadding vec_ed tok_e tok_d)
  else (state, .ok vec_ed)

/-- Whether an `Except` result is a raised error. -/
def isError {ε α : Type} : Except ε α → Bool
  | .error _ => true
  | .ok _ => false

/-- The `EncoderMask` row `tok != 0`, summed by `jnp.sum` as a 0/1 row. -/
def maskRow (row : List ℤ) : List ℤ :=
  row.map (fun t => if t ≠ 0 then (1 : ℤ) else 0)

/-- The 0/1 encoder mask `tok_e != 0` over a whole batch. -/
def maskOf (tok_e : Arr2 ℤ) : Arr2 ℤ := tok_e.map maskRow

/-- Python float modulo `a % b` for `b ≠ 0`: `a - b * floor(a / b)` (exact on
the rationals, as the float arithmetic in the source is on these operands). -/
def pythonFmod (a b : ℚ) : ℚ := a - b * ⌊a / b⌋

/-- The head-count check of `ConfigurableTerraformer`: it raises exactly when
`(d_model / 2) % n_heads != 0`, Python `/` being true division. -/
def terraformerHeadsCheckRaises (d_model n_heads : ℕ) : Bool :=
  pythonFmod ((d_model : ℚ) / 2) (n_heads : ℚ) ≠ 0

/-- Syntax of the layer combinators that `_ReversibleSerialForget` assembles:
opaque blocks (the reformer encoder/decoder blocks it is given), `Serial`,
`ReversibleSerial`, `Dense`, `Dup`, `Select` and the `_XYAvg` function layer. -/
inductive Layer where
  | base : ℕ → Layer
  | serial : List Layer → Layer
  | reversibleSerial : List Layer → Layer
  | dense : ℕ → Layer
  | dup : Layer
  | select : List ℕ → Layer
  | xyAvg : Layer

/-- The forgetting block of `_ReversibleSerialForget`: `Serial(_XYAvg(),
Dense(d_model), Dup())` when `forget_dense`, else `Select([0, 1])`. -/
def forgettingLayer (d_model : ℕ) (forget_dense : Bool) : Layer :=
  if forget_dense then .serial [.xyAvg, .dense d_model, .dup]
  else .select [0, 1]

/-- `_ReversibleSerialForget(layers, d_model, n_layers, forget_dense)`:
`ReversibleSerial` of all the layers when `n_layers` is falsy or there are at
most `n_layers + 1` layers; otherwise the first `n_layers` layers, a
forgetting block, and the recursion on the rest. -/
def reversibleSerialForget (layers : List Layer) (d_model : ℕ)
    (n_layers : ℕ) (forget_dense : Bool) : Layer :=
  if n_layers = 0 ∨ layers.length ≤ n_layers + 1 then
    .reversibleSerial layers
  else
    .serial [.reversibleSerial (layers.take n_layers),
             forgettingLayer d_model forget_dense,
             reversibleSerialForget (layers.drop n_layers) d_model n_layers forget_dense]
termination_by layers.length
decreasing_by
  simp only [List.length_drop]
  omega

/-- An IEEE-style float value: a finite rational, a signed infinity, or NaN.
Only division by zero is needed from the float arithmetic of the source. -/
inductive FP where
  | fin : ℚ → FP
  | inf : FP
  | neginf : FP
  | nan : FP
deriving DecidableEq, Repr

/-- IEEE division by `+0.0` (`x / 0.` in `_convert_to_nans`): `0/0` is NaN,
a positive value gives `+inf`, a negative value gives `-inf`. -/
def FP.divByZero : FP → FP
  | .fin q => if q = 0 then .nan else if 0 < q then .inf else .neginf
  | .inf => .inf
  | .neginf => .neginf
  | .nan => .nan

/-- `_convert_to_nans(x, y)` from `_ConvertToNaNsOnAnyZero`:
`jnp.where(jnp.all(y), x, x / 0.), y` — if every mask entry is truthy the
embeddings pass through, otherwise every embedding is divided by zero. -/
def convertToNaNsOnAnyZero (x : Arr3 FP) (y : Arr2 ℚ) : Arr3 FP × Arr2 ℚ :=
  if y.all (fun row => row.all (fun v => decide (v ≠ 0))) then (x, y)
  else (x.map (fun m => m.map (fun r => r.map FP.divByZero)), y)

/-- The mask guard that `ConfigurableTerraformer` inserts before the encoder:
`_ConvertToNaNsOnAnyZero()` in predict mode, the empty layer list otherwise. -/
def terraformerMaskGuard (mode : Mode) (x : Arr3 FP) (y : Arr2 ℚ) :
    Arr3 FP × Arr2 ℚ :=
  if mode = Mode.predict then convertToNaNsOnAnyZero x y else (x, y)

/-- Whether an `FP` value is finite. -/
def FP.isFinite : FP → Bool
  | .fin _ => true
  | _ => false

/- ### Helper lemmas -/

theorem dynamicUpdateSlice_of_fits {β : Type} (op u : List β) (n : ℕ)
    (h : n + u.length ≤ op.length) :
    dynamicUpdateSlice op u (n : ℤ) = op.take n ++ u ++ op.drop (n + u.length) := by
  have hs : (min (max (n : ℤ) 0) ((op.length : ℤ) - (u.length : ℤ))).toNat = n := by
    omega
  simp only [dynamicUpdateSlice, hs]

theorem dynamicSlice_of_fits {β : Type} (op : List β) (n len : ℕ)
    (h : n + len ≤ op.length) :
    dynamicSlice op (n : ℤ) len = (op.drop n).take len := by
  have hs : (min (max (n : ℤ) 0) ((op.length : ℤ) - (len : ℤ))).toNat = n := by
    omega
  simp only [dynamicSlice, hs]

theorem dynamicUpdateSlice_length {β : Type} (op u : List β) (s : ℤ)
    (h : u.length ≤ op.length) :
    (dynamicUpdateSlice op u s).length = op.length := by
  simp only [dynamicUpdateSlice, List.length_append, List.length_take,
    List.length_drop]
  omega

theorem zerosLike_length {α : Type} [Zero α] (rd : List (List α)) :
    (zerosLike rd).length = rd.length := by
  simp [zerosLike]

theorem maskRow_sum (row : List ℤ) :
    (maskRow row).sum = ((row.countP (fun t => decide (t ≠ 0))) : ℤ) := by
  induction row with
  | nil => simp [maskRow]
  | cons a t ih =>
    by_cases ha : a = 0 <;>
      simp [maskRow, List.countP_cons, ha] at ih ⊢ <;> omega

theorem maskRow_length (row : List ℤ) : (maskRow row).length = row.length := by
  simp [maskRow]

theorem sum_zero_one_bounds (l : List ℤ) (h : ∀ v ∈ l, v = 0 ∨ v = 1) :
    0 ≤ l.sum ∧ l.sum ≤ l.length := by
  induction l with
  | nil => simp
  | cons a t ih =>
    have ha := h a (by simp)
    have ht := ih (fun v hv => h v (by simp [hv]))
    simp only [List.sum_cons, List.length_cons]
    constructor
    · rcases ha with h0 | h1 <;> omega
    · rcases ha with h0 | h1 <;> push_cast <;> omega

theorem dim1_eq {β : Type} {t : List (List β)} {L : ℕ}
    (ht : t ≠ []) (h : ∀ r ∈ t, r.length = L) : dim1 t = L := by
  cases t with
  | nil => exact absurd rfl ht
  | cons r rs => simpa [dim1] using h r (by simp)

theorem dim2_eq {α : Type} {t : Arr3 α} {B L H : ℕ}
    (h : Rect3 t B L H) (hB : 0 < B) (hL : 0 < L) : dim2 t = H := by
  obtain ⟨hlen, hrows⟩ := h
  cases t with
  | nil => simp at hlen; omega
  | cons r rs =>
    obtain ⟨hrL, hv⟩ := hrows r (by simp)
    cases r with
    | nil => simp at hrL; omega
    | cons v vs => simpa [dim2, dim1] using hv v (by simp)

theorem map3_length_of_eq {a b c d : Type} (f : a → b → c → d) :
    ∀ (as : List a) (bs : List b) (cs : List c),
      as.length = bs.length → bs.length = cs.length →
      (map3 f as bs cs).length = as.length := by
  intro as
  induction as with
  | nil => intro bs cs _ _; simp [map3]
  | cons x xs ih =>
    intro bs cs h1 h2
    cases bs with
    | nil => simp at h1
    | cons y ys =>
      cases cs with
      | nil => simp at h2
      | cons z zs =>
        simp only [map3, List.length_cons]
        simp only [List.length_cons] at h1 h2
        rw [ih ys zs (by omega) (by omega)]

theorem map3_forall_mem {a b c d : Type} (f : a → b → c → d) (P : d → Prop) :
    ∀ (as : List a) (bs : List b) (cs : List c),
      (∀ x ∈ as, ∀ y ∈ bs, ∀ z ∈ cs, P (f x y z)) →
      ∀ w ∈ map3 f as bs cs, P w := by
  intro as
  induction as with
  | nil => intro bs cs _ w hw; simp [map3] at hw
  | cons x xs ih =>
    intro bs cs h w hw
    cases bs with
    | nil => simp [map3] at hw
    | cons y ys =>
      cases cs with
      | nil => simp [map3] at hw
      | cons z zs =>
        simp only [map3, List.mem_cons] at hw
        rcases hw with hw | hw
        · exact hw ▸ h x (by simp) y (by simp) z (by simp)
        · exact ih ys zs
            (fun x' hx' y' hy' z' hz' =>
              h x' (by simp [hx']) y' (by simp [hy']) z' (by simp [hz'])) w hw

theorem map3_congr_mem {a b c d : Type} {f g : a → b → c → d} :
    ∀ (as : List a) (bs : List b) (cs : List c),
      (∀ x ∈ as, ∀ y ∈ bs, ∀ z ∈ cs, f x y z = g x y z) →
      map3 f as bs cs = map3 g as bs cs := by
  intro as
  induction as with
  | nil => intro bs cs _; cases bs <;> cases cs <;> simp [map3]
  | cons x xs ih =>
    intro bs cs h
    cases bs with
    | nil => simp [map3]
    | cons y ys =>
      cases cs with
      | nil => simp [map3]
      | cons z zs =>
        simp only [map3]
        rw [h x (by simp) y (by simp) z (by simp),
          ih ys zs (fun x' hx' y' hy' z' hz' =>
            h x' (by simp [hx']) y' (by simp [hy']) z' (by simp [hz']))]

theorem concatUpdateRow_length {α : Type} [Zero α]
    (re rd : List (List α)) (rm : List ℤ) :
    (concatUpdateRow re rd rm).length = re.length + rd.length := by
  have h := dynamicUpdateSlice_length (re ++ zerosLike rd) rd rm.sum
    (by simp [zerosLike])
  simpa [concatUpdateRow, zerosLike] using h

/-- The explicit layout of a concatenated row: the first `sum(mask)` encoder
vectors, then the decoder row, then the remaining tail of (encoder row ++ zero
rows) shifted past the inserted decoder row. -/
theorem concatUpdateRow_layout {α : Type} [Zero α]
    (re rd : List (List α)) (rm : List ℤ)
    (h01 : ∀ v ∈ rm, v = 0 ∨ v = 1) (hlen : rm.length = re.length) :
    concatUpdateRow re rd rm =
      re.take rm.sum.toNat ++ rd ++
        (re ++ zerosLike rd).drop (rm.sum.toNat + rd.length) := by
  obtain ⟨hpos, hle⟩ := sum_zero_one_bounds rm h01
  set n : ℕ := rm.sum.toNat with hn
  have hcast : (rm.sum : ℤ) = (n : ℤ) := by omega
  have hnre : n ≤ re.length := by omega
  have hfits : n + rd.length ≤ (re ++ zerosLike rd).length := by
    simp [zerosLike]; omega
  simp only [concatUpdateRow, hcast]
  rw [dynamicUpdateSlice_of_fits _ _ _ hfits,
    List.take_append_of_le_length hnre]

/-- A stripped row is the plain slice `row_ed[len_e : len_e + L2]` whenever
the slice fits (no index clamping happens). -/
theorem stripUpdateRow_eq_drop_take {α : Type}
    (red : List (List α)) (re : List ℤ) (L2 : ℕ)
    (h : re.countP (fun t => decide (t ≠ 0)) + L2 ≤ red.length) :
    stripUpdateRow red re L2 =
      (red.drop (re.countP (fun t => decide (t ≠ 0)))).take L2 := by
  simp only [stripUpdateRow]
  exact dynamicSlice_of_fits red _ L2 h

/-- Stripping undoes concatenating on a single row when the mask is the
indicator of the nonzero encoder tokens. -/
theorem row_roundtrip {α : Type} [Zero α] (L1 L2 : ℕ)
    (re rd : List (List α)) (tr : List ℤ)
    (hre : re.length = L1) (hrd : rd.length = L2) (htr : tr.length = L1) :
    stripUpdateRow (concatUpdateRow re rd (maskRow tr)) tr L2 = rd := by
  set n : ℕ := tr.countP (fun t => decide (t ≠ 0)) with hn
  have hnle : n ≤ L1 := htr ▸ List.countP_le_length _
  have hsum : (maskRow tr).sum = (n : ℤ) := maskRow_sum tr
  have hfits : n + rd.length ≤ (re ++ zerosLike rd).length := by
    simp [zerosLike, hre, hrd]; omega
  have hrow : concatUpdateRow re rd (maskRow tr) =
      (re ++ zerosLike rd).take n ++ rd ++
        (re ++ zerosLike rd).drop (n + rd.length) := by
    simp only [concatUpdateRow, hsum]
    exact dynamicUpdateSlice_of_fits _ _ _ hfits
  have htk : ((re ++ zerosLike rd).take n).length = n := by
    simp [zerosLike, hre, hrd]; omega
  have hcvlen : (concatUpdateRow re rd (maskRow tr)).length = L1 + L2 := by
    rw [concatUpdateRow_length, hre, hrd]
  have hfits2 : n + L2 ≤ (concatUpdateRow re rd (maskRow tr)).length := by
    omega
  have key : ∀ (A C : List (List α)), A.length = n →
      ((A ++ rd ++ C).drop n).take L2 = rd := by
    intro A C hA
    rw [List.append_assoc, ← hA, List.drop_left, ← hrd, List.take_left]
  rw [stripUpdateRow_eq_drop_take _ _ _ (by rw [← hn]; exact hfits2), ← hn,
    hrow]
  exact key _ _ htk

/-- Stripping undoes concatenating over a whole batch. -/
theorem batch_roundtrip {α : Type} [Zero α] (L1 L2 : ℕ) :
    ∀ (ve vd : Arr3 α) (te td : Arr2 ℤ),
      ve.length = vd.length → vd.length = te.length → te.length = td.length →
      (∀ r ∈ ve, r.length = L1) → (∀ r ∈ vd, r.length = L2) →
      (∀ r ∈ te, r.length = L1) →
      map3 (fun row_ed row_e _ => stripUpdateRow row_ed row_e L2)
        (map3 concatUpdateRow ve vd (maskOf te)) te td = vd := by
  intro ve
  induction ve with
  | nil =>
    intro vd te td h1 _ _ _ _ _
    cases vd with
    | nil => simp [map3, maskOf]
    | cons d ds => simp at h1
  | cons r rs ih =>
    intro vd te td h1 h2 h3 hve hvd hte
    cases vd with
    | nil => simp at h1
    | cons d ds =>
      cases te with
      | nil => simp at h2
      | cons t ts =>
        cases td with
        | nil => simp at h3
        | cons u us =>
          simp only [maskOf, List.map_cons, map3]
          rw [row_roundtrip L1 L2 r d t
              (hve r (by simp)) (hvd d (by simp)) (hte t (by simp))]
          simp only [List.cons.injEq, true_and]
          have := ih ds ts us (by simpa using h1) (by simpa using h2)
            (by simpa using h3)
            (fun r' hr' => hve r' (by simp [hr']))
            (fun r' hr' => hvd r' (by simp [hr']))
            (fun r' hr' => hte r' (by simp [hr']))
          simpa [maskOf] using this

theorem rect3_dim1 {α : Type} {t : Arr3 α} {B L H : ℕ}
    (h : Rect3 t B L H) (hB : 0 < B) : dim1 t = L :=
  dim1_eq (List.length_pos.mp (h.1 ▸ hB)) (fun r hr => (h.2 r hr).1)

theorem rect2_dim1 {α : Type} {t : Arr2 α} {B L : ℕ}
    (h : Rect2 t B L) (hB : 0 < B) : dim1 t = L :=
  dim1_eq (List.length_pos.mp (h.1 ▸ hB)) h.2

/-- When the shape contract holds, `_ConcatWithPadding` raises nothing and
returns the mapped row update. -/
theorem concatWithPadding_ok {α : Type} [Zero α] (B L1 L2 H : ℕ)
    (vec_e vec_d : Arr3 α) (mask_e : Arr2 ℤ)
    (hB : 0 < B) (hL1 : 0 < L1) (hL2 : 0 < L2)
    (he : Rect3 vec_e B L1 H) (hd : Rect3 vec_d B L2 H)
    (hm : Rect2 mask_e B L1) :
    concatWithPadding vec_e vec_d mask_e =
      .ok (map3 concatUpdateRow vec_e vec_d mask_e) := by
  have hBe : vec_e.length = B := he.1
  have hL1e : dim1 vec_e = L1 := rect3_dim1 he hB
  have hHe : dim2 vec_e = H := dim2_eq he hB hL1
  have hBd : vec_d.length = B := hd.1
  have hL2d : dim1 vec_d = L2 := rect3_dim1 hd hB
  have hHd : dim2 vec_d = H := dim2_eq hd hB hL2
  have hBm : mask_e.length = B := hm.1
  have hL1m : dim1 mask_e = L1 := rect2_dim1 hm hB
  simp [concatWithPadding, shape3, shape2, hBe, hL1e, hHe, hBd, hL2d, hHd,
    hBm, hL1m]

/-- When the length/shape contract holds, `_StripFromConcatenateWithPadding`
raises nothing and returns the mapped row slice.  (Only the batch length and
the leading row length of `vec_ed` are checked by the source.) -/
theorem stripFromConcatenateWithPadding_ok {α : Type} (B L1 L2 : ℕ)
    (vec_ed : Arr3 α) (tok_e tok_d : Arr2 ℤ)
    (hB : 0 < B) (hvB : vec_ed.length = B)
    (hvL : ∀ r ∈ vec_ed, r.length = L1 + L2)
    (hte : Rect2 tok_e B L1) (htd : Rect2 tok_d B L2) :
    stripFromConcatenateWithPadding vec_ed tok_e tok_d =
      .ok (map3 (fun row_ed row_e _ => stripUpdateRow row_ed row_e L2)
        vec_ed tok_e tok_d) := by
  have hLv : dim1 vec_ed = L1 + L2 :=
    dim1_eq (List.length_pos.mp (hvB ▸ hB)) hvL
  have hBe : tok_e.length = B := hte.1
  have hL1e : dim1 tok_e = L1 := rect2_dim1 hte hB
  have hBd : tok_d.length = B := htd.1
  have hL2d : dim1 tok_d = L2 := rect2_dim1 htd hB
  simp [stripFromConcatenateWithPadding, shape2, hLv, hBe, hL1e, hBd, hL2d,
    hvB]

/-- C1: for every batch of encoder vectors `(B, L1, H)`, decoder vectors
`(B, L2, H)`, encoder tokens `(B, L1)` and decoder tokens `(B, L2)`, with the
0/1 mask equal to the indicator `tok_e != 0`, running `ConcatWithPadding` in
train/eval mode and then `StripFromConcatenateWithPadding` on the result
returns the decoder vectors exactly: concatenate-then-strip is the identity
on the decoder portion. -/
theorem concat_then_strip_identity {α : Type} [Zero α] (B L1 L2 H : ℕ)
    (vec_e vec_d : Arr3 α) (tok_e tok_d mask_e : Arr2 ℤ)
    (hB : 0 < B) (hL1 : 0 < L1) (hL2 : 0 < L2)
    (he : Rect3 vec_e B L1 H) (hd : Rect3 vec_d B L2 H)
    (hte : Rect2 tok_e B L1) (htd : Rect2 tok_d B L2)
    (hm : mask_e = maskOf tok_e) :
    concatWithPadding vec_e vec_d mask_e =
      .ok (map3 concatUpdateRow vec_e vec_d mask_e) ∧
    stripFromConcatenateWithPadding
      (map3 concatUpdateRow vec_e vec_d mask_e) tok_e tok_d = .ok vec_d := by
  have hmre : Rect2 mask_e B L1 := by
    subst hm
    exact ⟨by simp [maskOf, hte.1],
      fun r hr => by
        obtain ⟨r0, hr0, hrr⟩ := List.mem_map.mp hr
        rw [← hrr, maskRow_length]
        exact hte.2 r0 hr0⟩
  refine ⟨concatWithPadding_ok B L1 L2 H vec_e vec_d mask_e hB hL1 hL2 he hd
    hmre, ?_⟩
  have hlen_ve : vec_e.length = B := he.1
  have hlen_vd : vec_d.length = B := hd.1
  have hlen_te : tok_e.length = B := hte.1
  have hlen_td : tok_d.length = B := htd.1
  have hout_len : (map3 concatUpdateRow vec_e vec_d mask_e).length = B := by
    rw [map3_length_of_eq concatUpdateRow vec_e vec_d mask_e
      (by rw [hlen_ve, hlen_vd]) (by rw [hlen_vd, hmre.1]), hlen_ve]
  have hout_rows : ∀ r ∈ map3 concatUpdateRow vec_e vec_d mask_e,
      r.length = L1 + L2 := by
    apply map3_forall_mem concatUpdateRow (fun r => r.length = L1 + L2)
    intro x hx y hy z _
    rw [concatUpdateRow_length, (he.2 x hx).1, (hd.2 y hy).1]
  rw [stripFromConcatenateWithPadding_ok B L1 L2 _ tok_e tok_d hB hout_len
    hout_rows hte htd, hm]
  rw [batch_roundtrip L1 L2 vec_e vec_d tok_e tok_d
    (by rw [hlen_ve, hlen_vd]) (by rw [hlen_vd, hlen_te])
    (by rw [hlen_te, hlen_td])
    (fun r hr => (he.2 r hr).1) (fun r hr => (hd.2 r hr).1) hte.2]

/-- Witness for C1 at a concrete instance. -/
theorem concat_then_strip_identity_witness :
    concatWithPadding (α := ℤ) [[[2]]] [[[3]]] [[1]] =
      .ok (map3 concatUpdateRow [[[2]]] [[[3]]] [[1]]) ∧
    stripFromConcatenateWithPadding
      (map3 concatUpdateRow ([[[2]]] : Arr3 ℤ) [[[3]]] [[1]]) [[7]] [[8]] =
      .ok [[[3]]] :=
  concat_then_strip_identity 1 1 1 1 [[[2]]] [[[3]]] [[7]] [[8]] [[1]]
    (by decide) (by decide) (by decide) (by decide) (by decide) (by decide)
    (by decide) (by decide)

/-- C2 (amended): for every valid `(B, L1, H)`/`(B, L2, H)`/`(B, L1)` input
triple with a 0/1 mask, each output row with `n = sum` of its mask row is the
first `n` encoder vectors of that row, then the decoder row placed at offset
`n`, then the remaining tail of (encoder row ++ zero rows) starting at
position `n + L2`: entries of the `length1` region beyond `n + L2 - 1` keep
the encoder vectors stored there, and only positions past both regions are
zero. -/
theorem concat_row_layout {α : Type} [Zero α] (B L1 L2 H : ℕ)
    (vec_e vec_d : Arr3 α) (mask_e : Arr2 ℤ)
    (hB : 0 < B) (hL1 : 0 < L1) (hL2 : 0 < L2)
    (he : Rect3 vec_e B L1 H) (hd : Rect3 vec_d B L2 H)
    (hm : Rect2 mask_e B L1)
    (h01 : ∀ r ∈ mask_e, ∀ v ∈ r, v = 0 ∨ v = 1) :
    concatWithPadding vec_e vec_d mask_e =
      .ok (map3 (fun re rd rm =>
        re.take rm.sum.toNat ++ rd ++
          (re ++ zerosLike rd).drop (rm.sum.toNat + rd.length))
        vec_e vec_d mask_e) := by
  rw [concatWithPadding_ok B L1 L2 H vec_e vec_d mask_e hB hL1 hL2 he hd hm]
  congr 1
  apply map3_congr_mem
  intro x hx y _ z hz
  exact concatUpdateRow_layout x y z (h01 z hz)
    (by rw [hm.2 z hz, (he.2 x hx).1])

/-- Counterexample to C2 as stated: with encoder row `[[5],[6],[7]]`, decoder
row `[[9]]` and mask `[1,0,0]` (so `n = 1`, `L1 = 3`, `L2 = 1`), position 2 of
the output row keeps the encoder vector `[7]`, while the claim requires every
position beyond `n + L2 - 1 = 1` — including positions in the `length1`
region — to be the zero vector, i.e. output `[[5],[9],[0],[0]]`. -/
theorem concat_row_layout_counterexample :
    concatWithPadding (α := ℤ) [[[5], [6], [7]]] [[[9]]] [[1, 0, 0]] =
      .ok [[[5], [9], [7], [0]]] ∧
    ([[[5], [9], [7], [0]]] : Arr3 ℤ) ≠ [[[5], [9], [0], [0]]] :=
  ⟨rfl, by decide⟩

/-- Witness for C2 at a concrete instance with a padded row. -/
theorem concat_row_layout_witness :
    concatWithPadding (α := ℤ) [[[5], [6], [7]]] [[[9]]] [[1, 0, 0]] =
      .ok (map3 (fun re rd rm =>
        re.take rm.sum.toNat ++ rd ++
          (re ++ zerosLike rd).drop (rm.sum.toNat + rd.length))
        ([[[5], [6], [7]]] : Arr3 ℤ) [[[9]]] ([[1, 0, 0]] : Arr2 ℤ)) :=
  concat_row_layout 1 3 1 1 [[[5], [6], [7]]] [[[9]]] [[1, 0, 0]]
    (by decide) (by decide) (by decide) (by decide) (by decide) (by decide)
    (by decide)

/-- C6: in train/eval mode, `StripFromConcatenateWithPadding` returns, for
each batch row independently, the length-`L2` slice of the merged row starting
at the count of nonzero encoder tokens of that row. -/
theorem strip_rows_are_slices {α : Type} (B L1 L2 : ℕ)
    (vec_ed : Arr3 α) (tok_e tok_d : Arr2 ℤ)
    (hB : 0 < B) (hvB : vec_ed.length = B)
    (hvL : ∀ r ∈ vec_ed, r.length = L1 + L2)
    (hte : Rect2 tok_e B L1) (htd : Rect2 tok_d B L2) :
    stripFromConcatenateWithPadding vec_ed tok_e tok_d =
      .ok (map3 (fun row_ed row_e _ =>
        (row_ed.drop (row_e.countP (fun t => decide (t ≠ 0)))).take L2)
        vec_ed tok_e tok_d) := by
  rw [stripFromConcatenateWithPadding_ok B L1 L2 vec_ed tok_e tok_d hB hvB
    hvL hte htd]
  congr 1
  apply map3_congr_mem
  intro x hx y hy _ _
  apply stripUpdateRow_eq_drop_take
  have hcnt : y.countP (fun t => decide (t ≠ 0)) ≤ L1 :=
    hte.2 y hy ▸ List.countP_le_length _
  rw [hvL x hx]
  omega

/-- Witness for C6 at a concrete instance. -/
theorem strip_rows_are_slices_witness :
    stripFromConcatenateWithPadding (α := ℤ)
      [[[1], [2], [3]], [[4], [5], [6]]] [[9, 0], [9, 9]] [[3], [4]] =
      .ok (map3 (fun row_ed row_e _ =>
        (row_ed.drop (row_e.countP (fun t => decide (t ≠ 0)))).take 1)
        ([[[1], [2], [3]], [[4], [5], [6]]] : Arr3 ℤ)
        [[9, 0], [9, 9]] [[3], [4]]) :=
  strip_rows_are_slices 2 2 1 [[[1], [2], [3]], [[4], [5], [6]]]
    [[9, 0], [9, 9]] [[3], [4]] (by decide) (by decide) (by decide)
    (by decide) (by decide)

/-- C7: in train/eval mode, `_StripFromConcatenateWithPadding` raises exactly
when the merged length `L` differs from `L1 + L2` or one of the token tensors
has a batch dimension different from the merged tensor's; otherwise it does
not raise. -/
theorem strip_error_iff {α : Type} (B L H Be L1 Bd L2 : ℕ)
    (vec_ed : Arr3 α) (tok_e tok_d : Arr2 ℤ)
    (hv : Rect3 vec_ed B L H) (hte : Rect2 tok_e Be L1)
    (htd : Rect2 tok_d Bd L2)
    (hB : 0 < B) (hBe : 0 < Be) (hBd : 0 < Bd) :
    isError (stripFromConcatenateWithPadding vec_ed tok_e tok_d) = true ↔
      (L ≠ L1 + L2 ∨ Be ≠ B ∨ Bd ≠ B) := by
  have h1 : dim1 vec_ed = L := rect3_dim1 hv hB
  have h2 : dim1 tok_e = L1 := rect2_dim1 hte hBe
  have h3 : dim1 tok_d = L2 := rect2_dim1 htd hBd
  simp only [stripFromConcatenateWithPadding, h1, h2, h3, shape2, hte.1,
    htd.1, hv.1]
  split_ifs with c1 c2 c3
  · simp only [isError, true_iff]
    exact Or.inl c1
  · simp only [isError, true_iff]
    by_contra h
    push_neg at h
    exact c2 (by rw [h.2.1])
  · simp only [isError, true_iff]
    by_contra h
    push_neg at h
    exact c3 (by rw [h.2.2])
  · simp only [isError, Bool.false_eq_true, false_iff]
    have e2 := not_ne_iff.mp c2
    have e3 := not_ne_iff.mp c3
    simp only [Prod.mk.injEq] at e2 e3
    push_neg
    exact ⟨not_not.mp c1, e2.1, e3.1⟩

/-- Witness for C7: a mismatched merged length raises, a matching one does
not. -/
theorem strip_error_iff_witness :
    (isError (stripFromConcatenateWithPadding (α := ℤ)
        [[[1]]] [[9, 9]] [[3]]) = true ↔
      ((1 : ℕ) ≠ 2 + 1 ∨ (1 : ℕ) ≠ 1 ∨ (1 : ℕ) ≠ 1)) ∧
    (isError (stripFromConcatenateWithPadding (α := ℤ)
        [[[1], [2], [3]]] [[9, 9]] [[3]]) = true ↔
      ((3 : ℕ) ≠ 2 + 1 ∨ (1 : ℕ) ≠ 1 ∨ (1 : ℕ) ≠ 1)) :=
  ⟨strip_error_iff 1 1 1 1 2 1 1 [[[1]]] [[9, 9]] [[3]]
      (by decide) (by decide) (by decide) (by decide) (by decide) (by decide),
   strip_error_iff 1 3 1 1 2 1 1 [[[1], [2], [3]]] [[9, 9]] [[3]]
      (by decide) (by decide) (by decide) (by decide) (by decide) (by decide)⟩

/-- C8: in train/eval mode, `_ConcatWithPadding` raises exactly when the
decoder vector's batch or hidden dimension differs from the encoder vector's,
or the mask's shape differs from `(B, L1)`; otherwise it does not raise. -/
theorem concat_error_iff {α : Type} [Zero α] (B L1 H Bd L2 Hd Bm Lm : ℕ)
    (vec_e vec_d : Arr3 α) (mask_e : Arr2 ℤ)
    (he : Rect3 vec_e B L1 H) (hd : Rect3 vec_d Bd L2 Hd)
    (hm : Rect2 mask_e Bm Lm)
    (hB : 0 < B) (hL1 : 0 < L1) (hBd : 0 < Bd) (hL2 : 0 < L2)
    (hBm : 0 < Bm) :
    isError (concatWithPadding vec_e vec_d mask_e) = true ↔
      (Bd ≠ B ∨ Hd ≠ H ∨ Bm ≠ B ∨ Lm ≠ L1) := by
  have h1 : dim1 vec_e = L1 := rect3_dim1 he hB
  have h2 : dim2 vec_e = H := dim2_eq he hB hL1
  have h3 : dim1 vec_d = L2 := rect3_dim1 hd hBd
  have h4 : dim2 vec_d = Hd := dim2_eq hd hBd hL2
  have h5 : dim1 mask_e = Lm := rect2_dim1 hm hBm
  simp only [concatWithPadding, shape3, shape2, h1, h2, h3, h4, h5, he.1,
    hd.1, hm.1]
  split_ifs with c1 c2
  · simp only [isError, true_iff]
    by_contra h
    push_neg at h
    exact c1 (by rw [h.1, h.2.1])
  · simp only [isError, true_iff]
    by_contra h
    push_neg at h
    exact c2 (by rw [h.2.2.1, h.2.2.2])
  · simp only [isError, Bool.false_eq_true, false_iff]
    have e1 := not_ne_iff.mp c1
    have e2 := not_ne_iff.mp c2
    simp only [Prod.mk.injEq] at e1 e2
    push_neg
    exact ⟨e1.1, e1.2.2, e2.1, e2.2⟩

/-- Witness for C8: a hidden-dimension mismatch raises, a matching triple
does not. -/
theorem concat_error_iff_witness :
    (isError (concatWithPadding (α := ℤ)
        [[[1]]] [[[2, 2]]] [[1]]) = true ↔
      ((1 : ℕ) ≠ 1 ∨ (2 : ℕ) ≠ 1 ∨ (1 : ℕ) ≠ 1 ∨ (1 : ℕ) ≠ 1)) ∧
    (isError (concatWithPadding (α := ℤ)
        [[[1]]] [[[2]]] [[1]]) = true ↔
      ((1 : ℕ) ≠ 1 ∨ (1 : ℕ) ≠ 1 ∨ (1 : ℕ) ≠ 1 ∨ (1 : ℕ) ≠ 1)) :=
  ⟨concat_error_iff 1 1 1 1 1 2 1 1 [[[1]]] [[[2, 2]]] [[1]]
      (by decide) (by decide) (by decide) (by decide) (by decide) (by decide)
      (by decide) (by decide),
   concat_error_iff 1 1 1 1 1 1 1 1 [[[1]]] [[[2]]] [[1]]
      (by decide) (by decide) (by decide) (by decide) (by decide) (by decide)
      (by decide) (by decide)⟩

/-- C4: `ConfigurableTerraformer` raises its configuration error exactly when
`n_heads` does not evenly divide `d_model / 2` — that is, when `2 * n_heads`
does not divide `d_model`; in particular `d_model = 512` raises with
`n_heads = 7` and succeeds with `n_heads = 8`.  The check is the first
statement of the builder, before any layer is constructed. -/
theorem terraformer_heads_check (d n : ℕ) (hn : 0 < n) :
    (terraformerHeadsCheckRaises d n = true ↔ ¬ (2 * n ∣ d)) ∧
    terraformerHeadsCheckRaises 512 7 = true ∧
    terraformerHeadsCheckRaises 512 8 = false := by
  have key : ∀ (d' n' : ℕ), 0 < n' →
      (terraformerHeadsCheckRaises d' n' = true ↔ ¬ (2 * n' ∣ d')) := by
    intro d' n' hn'
    have hn0 : ((n' : ℚ)) ≠ 0 := by positivity
    rw [show (terraformerHeadsCheckRaises d' n' = true) ↔
        pythonFmod ((d' : ℚ) / 2) (n' : ℚ) ≠ 0 from by
      simp [terraformerHeadsCheckRaises]]
    constructor
    · intro hne hdvd
      obtain ⟨k, hk⟩ := hdvd
      apply hne
      subst hk
      unfold pythonFmod
      have h1 : ((2 * n' * k : ℕ) : ℚ) / 2 = (n' : ℚ) * k := by
        push_cast; ring
      rw [h1]
      have h2 : ((n' : ℚ) * k) / n' = (k : ℚ) := by field_simp
      rw [h2, Int.floor_natCast]
      push_cast
      ring
    · intro hndvd heq
      unfold pythonFmod at heq
      set m : ℤ := ⌊((d' : ℚ) / 2) / (n' : ℚ)⌋ with hm
      have hd2 : (d' : ℚ) = 2 * ((n' : ℚ) * m) := by linarith [heq]
      have hdz : (d' : ℤ) = 2 * ((n' : ℤ) * m) := by exact_mod_cast hd2
      have hm0 : 0 ≤ m := by
        rw [hm]
        apply Int.floor_nonneg.mpr
        positivity
      lift m to ℕ using hm0 with m'
      refine hndvd ⟨m', ?_⟩
      have : (d' : ℤ) = ((2 * n' * m' : ℕ) : ℤ) := by push_cast; linarith [hdz]
      exact_mod_cast this
  refine ⟨key d n hn, ?_, ?_⟩
  · exact (key 512 7 (by norm_num)).mpr (by decide)
  · exact Bool.eq_false_iff.mpr
      (fun h => (key 512 8 (by norm_num)).mp h (by decide))

/-- Witness for C4 at `d_model = 512`, `n_heads = 8`. -/
theorem terraformer_heads_check_witness :
    (terraformerHeadsCheckRaises 512 8 = true ↔ ¬ (2 * 8 ∣ 512)) ∧
    terraformerHeadsCheckRaises 512 7 = true ∧
    terraformerHeadsCheckRaises 512 8 = false :=
  terraformer_heads_check 512 8 (by decide)

/-- C5: in predict mode, the first call of either layer (state shape `()`)
performs the full concatenation/stripping and flips the state to shape
`(1,)`; every later call (state shape nonempty) returns the decoder tensor
argument unchanged for every input, preserving the state. -/
theorem predict_first_call_then_passthrough {α : Type} [Zero α]
    (vec_e vec_d vec_ed : Arr3 α) (mask_e tok_e tok_d : Arr2 ℤ)
    (st : List ℕ) (h : st ≠ []) :
    concatForward Mode.predict initClayerState vec_e vec_d mask_e =
      ([1], concatWithPadding vec_e vec_d mask_e) ∧
    concatForward Mode.predict st vec_e vec_d mask_e = (st, .ok vec_d) ∧
    stripForward Mode.predict initClayerState vec_ed tok_e tok_d =
      ([1], stripFromConcatenateWithPadding vec_ed tok_e tok_d) ∧
    stripForward Mode.predict st vec_ed tok_e tok_d = (st, .ok vec_ed) := by
  refine ⟨?_, ?_, ?_, ?_⟩ <;>
    simp [concatForward, stripForward, initClayerState, h]

/-- Witness for C5 at concrete inputs with post-first-call state `[1]`. -/
theorem predict_first_call_then_passthrough_witness :
    concatForward Mode.predict initClayerState [[[1]]] [[[2]]] [[1]] =
      ([1], concatWithPadding (α := ℤ) [[[1]]] [[[2]]] [[1]]) ∧
    concatForward Mode.predict [1] [[[1]]] [[[2]]] [[1]] =
      ([1], .ok ([[[2]]] : Arr3 ℤ)) ∧
    stripForward Mode.predict initClayerState [[[3]]] [[4]] [[5]] =
      ([1], stripFromConcatenateWithPadding (α := ℤ) [[[3]]] [[4]] [[5]]) ∧
    stripForward Mode.predict [1] [[[3]]] [[4]] [[5]] =
      ([1], .ok ([[[3]]] : Arr3 ℤ)) :=
  predict_first_call_then_passthrough [[[1]]] [[[2]]] [[[3]]] [[1]] [[4]]
    [[5]] [1] (by decide)

/-- C10: in predict mode after the first call, both layers return their input
tensor unchanged with no shape validation: no error can be raised after the
first call even on inputs violating the declared shape contract, while the
same violating input does raise on a first call (here a merged length 1
against declared lengths 2 + 1). -/
theorem predict_skips_shape_checks {α : Type} [Zero α]
    (vec_e vec_d vec_ed : Arr3 α) (mask_e tok_e tok_d : Arr2 ℤ)
    (st : List ℕ) (h : st ≠ []) :
    concatForward Mode.predict st vec_e vec_d mask_e = (st, .ok vec_d) ∧
    stripForward Mode.predict st vec_ed tok_e tok_d = (st, .ok vec_ed) ∧
    isError ((stripForward (α := ℤ) Mode.predict [1] [[[0]]] [[1, 2]]
      [[3]]).2) = false ∧
    isError ((stripForward (α := ℤ) Mode.predict initClayerState [[[0]]]
      [[1, 2]] [[3]]).2) = true := by
  refine ⟨?_, ?_, by decide, by decide⟩ <;>
    simp [concatForward, stripForward, h]

/-- Witness for C10 at concrete shape-violating inputs (decoder vector with
the wrong batch dimension, merged tensor with the wrong length). -/
theorem predict_skips_shape_checks_witness :
    concatForward Mode.predict [1] [[[1]]] ([] : Arr3 ℤ) [[9, 9]] =
      ([1], .ok []) ∧
    stripForward Mode.predict [1] ([[[0]]] : Arr3 ℤ) [[1, 2]] [[3]] =
      ([1], .ok [[[0]]]) ∧
    isError ((stripForward (α := ℤ) Mode.predict [1] [[[0]]] [[1, 2]]
      [[3]]).2) = false ∧
    isError ((stripForward (α := ℤ) Mode.predict initClayerState [[[0]]]
      [[1, 2]] [[3]]).2) = true :=
  predict_skips_shape_checks [[[1]]] [] [[[0]]] [[9, 9]] [[1, 2]] [[3]]
    [1] (by decide)

/-- C9: `_ReversibleSerialForget` returns the plain `ReversibleSerial` of all
the layers (no forgetting block) whenever `n_layers` is falsy or there are at
most `n_layers + 1` layers — in particular for a stack of exactly
`n_layers + 1` blocks; only with strictly more than `n_layers + 1` layers
does it produce the first `n_layers` layers, then the forgetting block
(average/dense/duplicate when `forget_dense`, a plain select otherwise), then
the recursion on the remaining layers. -/
theorem reversibleSerialForget_structure (layers : List Layer) (d n : ℕ)
    (fd : Bool) :
    ((n = 0 ∨ layers.length ≤ n + 1) →
      reversibleSerialForget layers d n fd = Layer.reversibleSerial layers) ∧
    (n ≠ 0 → n + 1 < layers.length →
      reversibleSerialForget layers d n fd =
        Layer.serial [Layer.reversibleSerial (layers.take n),
          (if fd then Layer.serial [Layer.xyAvg, Layer.dense d, Layer.dup]
           else Layer.select [0, 1]),
          reversibleSerialForget (layers.drop n) d n fd]) := by
  constructor
  · intro h
    rw [reversibleSerialForget, if_pos h]
  · intro h1 h2
    rw [reversibleSerialForget, if_neg (by push_neg; exact ⟨h1, by omega⟩),
      forgettingLayer]

/-- Witness for C9: a three-layer stack with `n_layers = 1` gets a forgetting
block, a two-layer stack does not. -/
theorem reversibleSerialForget_structure_witness :
    reversibleSerialForget [Layer.base 0, Layer.base 1, Layer.base 2] 4 1
        true =
      Layer.serial [Layer.reversibleSerial
          ([Layer.base 0, Layer.base 1, Layer.base 2].take 1),
        (if true then Layer.serial [Layer.xyAvg, Layer.dense 4, Layer.dup]
         else Layer.select [0, 1]),
        reversibleSerialForget ([Layer.base 0, Layer.base 1,
          Layer.base 2].drop 1) 4 1 true] ∧
    reversibleSerialForget [Layer.base 0, Layer.base 1] 4 1 true =
      Layer.reversibleSerial [Layer.base 0, Layer.base 1] :=
  ⟨(reversibleSerialForget_structure [Layer.base 0, Layer.base 1,
      Layer.base 2] 4 1 true).2 (by decide) (by decide),
   (reversibleSerialForget_structure [Layer.base 0, Layer.base 1] 4 1
      true).1 (Or.inr (by decide))⟩

/-- C3 (code bug): in predict mode the terraformer mask guard signals padding
by corrupting the embeddings without raising, but division by zero turns the
nonzero embedding `1` into `+inf`, not NaN as the claim (and the source's own
comment and the name `_ConvertToNaNsOnAnyZero`) state; an all-nonzero mask
passes the embeddings through unchanged. -/
theorem terraformer_nan_guard_divergence :
    terraformerMaskGuard Mode.predict [[[FP.fin 1]]] [[0]] =
      ([[[FP.inf]]], [[0]]) ∧
    FP.inf ≠ FP.nan ∧
    FP.inf.isFinite = false ∧
    terraformerMaskGuard Mode.predict [[[FP.fin 1]]] [[1]] =
      ([[[FP.fin 1]]], [[1]]) := by
  refine ⟨?_, by decide, by decide, ?_⟩ <;>
    simp [terraformerMaskGuard, convertToNaNsOnAnyZero, FP.divByZero]

end Trax
